import Mathlib

/- Verification of the temporal-normalization subsystem (nbs/common.scalers.ipynb):
the masked reduction primitives `masked_mean` / `masked_median`, the six scaler
forward/inverse pairs, and the `TemporalNorm` facade.

The embedding works one slice along the reduction dimension `dim` at a time: the
slice of the tensor `x` is a `List K` and the matching slice of `mask` a
`List Bool` (`true` = valid).  All reductions in the code are per-slice, and the
elementwise transforms broadcast the per-slice statistics back, so a slice
captures the whole computation.  Exact ordered-field arithmetic stands in for
floating point: a generic `LinearOrderedField K` (instantiated at `ℚ` for
concrete evaluations) is used wherever the code only adds, multiplies, divides
and compares, and `ℝ` wherever the code takes square roots (`std`, `robust`,
`invariant`) or hyperbolic functions (`invariant`).  NaN, produced by
`masked_fill(mask < 1, nan)` and consumed by `nanmean` / `nanmedian` /
`nan_to_num`, is modelled as `none` in `Option K`. -/

variable {K : Type*} [LinearOrderedField K]

/-- Entries of `x` at positions where `mask` is valid (`true`).  Spec-side
helper used to characterize the masked reductions. -/
def validVals (x : List K) (mask : List Bool) : List K :=
  (x.zip mask).filterMap (fun p => if p.2 then some p.1 else none)

/-- Embeds `x.float().masked_fill(mask < 1, float("nan"))`: `none` plays NaN. -/
def masked_fill (x : List K) (mask : List Bool) : List (Option K) :=
  List.zipWith (fun xi mi => if mi then some xi else none) x mask

/-- Embeds `Tensor.nanmean` along the slice: the arithmetic mean of the
non-NaN entries, NaN (`none`) when every entry is NaN. -/
def nanmean (l : List (Option K)) : Option K :=
  if (l.filterMap id).length = 0 then none
  else some ((l.filterMap id).sum / (l.filterMap id).length)

/-- Embeds `Tensor.nanmedian` along the slice: the lower middle element of the
non-NaN entries in sorted order, NaN (`none`) when every entry is NaN. -/
def nanmedian (l : List (Option K)) : Option K :=
  (List.insertionSort (· ≤ ·) (l.filterMap id)).get?
    (((List.insertionSort (· ≤ ·) (l.filterMap id)).length - 1) / 2)

/-- Embeds `masked_mean`: NaN-fill the invalid entries, `nanmean`, then
`torch.nan_to_num(…, nan=0.0)`. -/
def masked_mean (x : List K) (mask : List Bool) : K :=
  (nanmean (masked_fill x mask)).getD 0

/-- Embeds `masked_median`: NaN-fill the invalid entries, `nanmedian`, then
`torch.nan_to_num(…, nan=0.0)`. -/
def masked_median (x : List K) (mask : List Bool) : K :=
  (nanmedian (masked_fill x mask)).getD 0

/-- Embeds `x + (mask == 0) * s`: push the invalid entries by the sentinel `s`
(the code uses `s = ∓1e12`) so that they lose the following extremum. -/
def sentineled (x : List K) (mask : List Bool) (s : K) : List K :=
  List.zipWith (fun xi mi => xi + (if mi then 0 else s)) x mask

/-- Embeds `torch.max(·, dim=dim)` on one (nonempty) slice; the code never
reduces an empty slice, `0` is an arbitrary value for that case. -/
def listMax : List K → K
  | [] => 0
  | h :: t => t.foldl max h

/-- Embeds `torch.min(·, dim=dim)` on one (nonempty) slice. -/
def listMin : List K → K
  | [] => 0
  | h :: t => t.foldl min h

/-- The local `x_max` of the minmax scalers:
`torch.max(x + (mask==0)*(-1e12), dim=dim)`. -/
def minmax_x_max (x : List K) (mask : List Bool) : K :=
  listMax (sentineled x mask (-1000000000000))

/-- The local `x_min` of the minmax scalers:
`torch.min(x + (mask==0)*(1e12), dim=dim)`. -/
def minmax_x_min (x : List K) (mask : List Bool) : K :=
  listMin (sentineled x mask 1000000000000)

/-- The local `x_range` of the minmax scalers: `x_max - x_min`, replaced by
`1.0` when zero, plus `eps`. -/
def minmax_x_range (x : List K) (mask : List Bool) (eps : K) : K :=
  (if minmax_x_max x mask - minmax_x_min x mask = 0 then 1
    else minmax_x_max x mask - minmax_x_min x mask) + eps

/-- Embeds `minmax_scaler` on one slice: returns `(z, x_min, x_range)` after
the zero-range fallback to `1.0` and the `eps` addition. -/
def minmax_scaler (x : List K) (mask : List Bool) (eps : K) : List K × K × K :=
  ((x.map fun v => (v - minmax_x_min x mask) / minmax_x_range x mask eps),
    minmax_x_min x mask, minmax_x_range x mask eps)

/-- Embeds `minmax1_scaler` on one slice: as `minmax_scaler` but with the
output rescaled to `[-1, 1]` by `z = x * 2 - 1`. -/
def minmax1_scaler (x : List K) (mask : List Bool) (eps : K) : List K × K × K :=
  ((x.map fun v => ((v - minmax_x_min x mask) / minmax_x_range x mask eps) * 2 - 1),
    minmax_x_min x mask, minmax_x_range x mask eps)

/-- Embeds `identity_scaler` on one slice: `z = x`, shift `0`, scale `1` (the
code returns zero- and one-filled tensors of the collapsed shape). -/
def identity_scaler (x : List K) (mask : List Bool) (eps : K) : List K × K × K :=
  (x, 0, 1)

/-- Embeds `inv_minmax_scaler`: `z * x_range + x_min`. -/
def inv_minmax_scaler (z : List K) (x_min x_range : K) : List K :=
  z.map fun w => w * x_range + x_min

/-- Embeds `inv_minmax1_scaler`: `z = (z + 1) / 2; z * x_range + x_min`. -/
def inv_minmax1_scaler (z : List K) (x_min x_range : K) : List K :=
  z.map fun w => ((w + 1) / 2) * x_range + x_min

/-- Embeds `inv_std_scaler`: `(z * x_std) + x_mean`. -/
def inv_std_scaler (z : List K) (x_mean x_std : K) : List K :=
  z.map fun w => w * x_std + x_mean

/-- Embeds `inv_robust_scaler`: `z * x_mad + x_median`. -/
def inv_robust_scaler (z : List K) (x_median x_mad : K) : List K :=
  z.map fun w => w * x_mad + x_median

/-- Embeds `inv_identity_scaler`: returns `z` unchanged. -/
def inv_identity_scaler (z : List K) (x_shift x_scale : K) : List K :=
  z

/-- The raw scale statistic of `robust_scaler` and `invariant_scaler` before
the zero-mad fallback and the `eps` addition:
`x_mad = masked_median(torch.abs(x - x_median), mask)`. -/
def x_mad_raw (x : List K) (mask : List Bool) : K :=
  masked_median (x.map fun v => |v - masked_median x mask|) mask

/-- Lower-middle median of a bare list of values (`0` for the empty list);
spec-side helper. -/
def medianOfList (l : List K) : K :=
  ((List.insertionSort (· ≤ ·) l).get?
    (((List.insertionSort (· ≤ ·) l).length - 1) / 2)).getD 0

/-- Arithmetic mean of a bare list of values (`0` for the empty list);
spec-side helper. -/
def meanOfList (l : List K) : K :=
  if l.length = 0 then 0 else l.sum / l.length

/-- Spec-side reading of the amended C2: the masked median absolute deviation,
the median over the valid entries of the distances to the valid entries'
median. -/
def mad_med_spec (x : List K) (mask : List Bool) : K :=
  medianOfList ((validVals x mask).map fun v => |v - medianOfList (validVals x mask)|)

/-- Spec-side reading of the original C2: the masked mean absolute deviation
from the masked median (the masked arithmetic mean, over valid entries, of
`|x - masked_median x|`). -/
def mad_mean_spec (x : List K) (mask : List Bool) : K :=
  masked_mean (x.map fun v => |v - masked_median x mask|) mask

/- Basic characterizations of the masked reductions. -/

lemma filterMap_masked_fill (x : List K) (mask : List Bool) :
    (masked_fill x mask).filterMap id = validVals x mask := by
  induction x generalizing mask with
  | nil => cases mask <;> rfl
  | cons a as ih =>
    cases mask with
    | nil => rfl
    | cons m ms =>
      cases m <;>
        simp [masked_fill, validVals, List.zip_cons_cons, List.filterMap_cons] <;>
        simpa [masked_fill, validVals] using ih ms

lemma masked_mean_eq (x : List K) (mask : List Bool) :
    masked_mean x mask = meanOfList (validVals x mask) := by
  unfold masked_mean nanmean meanOfList
  rw [show (masked_fill x mask).filterMap id = validVals x mask from
    filterMap_masked_fill x mask]
  by_cases h : (validVals x mask).length = 0 <;> simp [h]

lemma masked_median_eq (x : List K) (mask : List Bool) :
    masked_median x mask = medianOfList (validVals x mask) := by
  unfold masked_median nanmedian medianOfList
  rw [show (masked_fill x mask).filterMap id = validVals x mask from
    filterMap_masked_fill x mask]

lemma validVals_map (f : K → K) (x : List K) (mask : List Bool) :
    validVals (x.map f) mask = (validVals x mask).map f := by
  induction x generalizing mask with
  | nil => cases mask <;> rfl
  | cons a as ih =>
    cases mask with
    | nil => rfl
    | cons m ms =>
      cases m <;>
        simp [validVals, List.zip_cons_cons, List.filterMap_cons] <;>
        simpa [validVals] using ih ms

/-- C2 (amended): for the robust and invariant scalers, the raw scale before
the zero-mad fallback and the eps addition is the masked MEDIAN absolute
deviation: the median, over the valid entries, of the absolute deviations from
the valid entries' median (not the masked mean absolute deviation). -/
theorem robust_raw_scale_is_median_ad {K : Type*} [LinearOrderedField K]
    (x : List K) (mask : List Bool) :
    x_mad_raw x mask = mad_med_spec x mask := by
  unfold x_mad_raw mad_med_spec
  rw [masked_median_eq, validVals_map, masked_median_eq]

/-- C2 (counterexample): on the slice `x = [0,0,0,10]` with an all-valid mask,
the raw scale statistic of the robust/invariant scalers is `0` (the median of
the absolute deviations `[0,0,0,10]`), while the masked mean absolute
deviation from the median announced by the claim is `5/2`; they differ. -/
theorem robust_raw_scale_mean_ad_counterexample :
    x_mad_raw ([0, 0, 0, 10] : List ℚ) [true, true, true, true] = 0 ∧
      mad_mean_spec ([0, 0, 0, 10] : List ℚ) [true, true, true, true] = 5 / 2 ∧
      x_mad_raw ([0, 0, 0, 10] : List ℚ) [true, true, true, true] ≠
        mad_mean_spec ([0, 0, 0, 10] : List ℚ) [true, true, true, true] := by
  have h1 : x_mad_raw ([0, 0, 0, 10] : List ℚ) [true, true, true, true] = 0 := by
    norm_num [x_mad_raw, masked_median, masked_fill, nanmedian, List.insertionSort,
      List.orderedInsert]
  have h2 : mad_mean_spec ([0, 0, 0, 10] : List ℚ) [true, true, true, true] = 5 / 2 := by
    norm_num [mad_mean_spec, masked_mean, masked_median, masked_fill, nanmean, nanmedian,
      List.insertionSort, List.orderedInsert, List.filterMap, Option.getD]
  exact ⟨h1, h2, by rw [h1, h2]; norm_num⟩

/- Membership and nonemptiness facts about `validVals`. -/

lemma mem_of_mem_validVals {v : K} {x : List K} {mask : List Bool}
    (h : v ∈ validVals x mask) : v ∈ x := by
  obtain ⟨p, hp, he⟩ := List.mem_filterMap.mp h
  rcases p with ⟨a, m⟩
  cases m with
  | true =>
    have ha : a = v := by simpa using he
    exact ha ▸ (List.of_mem_zip hp).1
  | false => simp at he

lemma validVals_ne_nil {x : List K} {mask : List Bool} (hlen : x.length = mask.length)
    (hv : mask.any (fun b => b) = true) : validVals x mask ≠ [] := by
  induction x generalizing mask with
  | nil =>
    cases mask with
    | nil => simp at hv
    | cons m ms => simp at hlen
  | cons a as ih =>
    cases mask with
    | nil => simp at hlen
    | cons m ms =>
      cases m with
      | true => simp [validVals, List.zip_cons_cons, List.filterMap_cons]
      | false =>
        have h1 : as.length = ms.length := by simpa using hlen
        have h2 : ms.any (fun b => b) = true := by simpa using hv
        simpa [validVals, List.zip_cons_cons, List.filterMap_cons] using ih h1 h2

/- The lower-middle median of a nonempty list is one of its elements. -/

lemma medianOfList_mem {l : List K} (h : l ≠ []) : medianOfList l ∈ l := by
  unfold medianOfList
  have hperm := List.perm_insertionSort ((· ≤ ·) : K → K → Prop) l
  have hlen : (List.insertionSort (· ≤ ·) l).length = l.length := hperm.length_eq
  have hpos : 0 < l.length := List.length_pos.mpr h
  have hk : (l.length - 1) / 2 < (List.insertionSort (· ≤ ·) l).length := by
    rw [hlen]; omega
  rw [List.get?_eq_getElem?, hlen, List.getElem?_eq_getElem hk]
  simpa using hperm.mem_iff.mp (List.getElem_mem hk)

lemma medianOfList_nil : medianOfList ([] : List K) = 0 := rfl

lemma medianOfList_nonneg {l : List K} (h : ∀ v ∈ l, 0 ≤ v) : 0 ≤ medianOfList l := by
  rcases eq_or_ne l [] with rfl | hne
  · simp [medianOfList_nil]
  · exact h _ (medianOfList_mem hne)

lemma masked_median_nonneg {x : List K} {mask : List Bool} (h : ∀ v ∈ x, 0 ≤ v) :
    0 ≤ masked_median x mask := by
  rw [masked_median_eq]
  exact medianOfList_nonneg fun v hv => h v (mem_of_mem_validVals hv)

/- Extremum lemmas for the `torch.max` / `torch.min` slice reductions. -/

lemma le_foldl_max (b : K) (l : List K) : b ≤ l.foldl max b := by
  induction l generalizing b with
  | nil => exact le_refl b
  | cons h t ih => exact le_trans (le_max_left b h) (ih (max b h))

lemma le_foldl_max_of_mem {a : K} {l : List K} (h : a ∈ l) (b : K) : a ≤ l.foldl max b := by
  induction l generalizing b with
  | nil => simp at h
  | cons c t ih =>
    rcases List.mem_cons.mp h with rfl | h2
    · exact le_trans (le_max_right b a) (le_foldl_max (max b a) t)
    · exact ih h2 (max b c)

lemma foldl_max_eq_or_mem (b : K) (l : List K) : l.foldl max b = b ∨ l.foldl max b ∈ l := by
  induction l generalizing b with
  | nil => exact Or.inl rfl
  | cons c t ih =>
    rcases ih (max b c) with h | h
    · rcases max_choice b c with h2 | h2
      · exact Or.inl (by rw [List.foldl_cons, h, h2])
      · exact Or.inr (by rw [List.foldl_cons, h, h2]; exact List.mem_cons_self c t)
    · exact Or.inr (List.mem_cons_of_mem _ h)

lemma le_listMax {a : K} {l : List K} (h : a ∈ l) : a ≤ listMax l := by
  cases l with
  | nil => simp at h
  | cons c t =>
    rcases List.mem_cons.mp h with rfl | h2
    · exact le_foldl_max a t
    · exact le_foldl_max_of_mem h2 c

lemma listMax_mem {l : List K} (h : l ≠ []) : listMax l ∈ l := by
  cases l with
  | nil => exact absurd rfl h
  | cons c t =>
    rcases foldl_max_eq_or_mem c t with h2 | h2
    · show t.foldl max c ∈ c :: t
      rw [h2]; exact List.mem_cons_self c t
    · exact List.mem_cons_of_mem _ h2

lemma foldl_min_le (b : K) (l : List K) : l.foldl min b ≤ b := by
  induction l generalizing b with
  | nil => exact le_refl b
  | cons h t ih => exact le_trans (ih (min b h)) (min_le_left b h)

lemma foldl_min_le_of_mem {a : K} {l : List K} (h : a ∈ l) (b : K) : l.foldl min b ≤ a := by
  induction l generalizing b with
  | nil => simp at h
  | cons c t ih =>
    rcases List.mem_cons.mp h with rfl | h2
    · exact le_trans (foldl_min_le (min b a) t) (min_le_right b a)
    · exact ih h2 (min b c)

lemma foldl_min_eq_or_mem (b : K) (l : List K) : l.foldl min b = b ∨ l.foldl min b ∈ l := by
  induction l generalizing b with
  | nil => exact Or.inl rfl
  | cons c t ih =>
    rcases ih (min b c) with h | h
    · rcases min_choice b c with h2 | h2
      · exact Or.inl (by rw [List.foldl_cons, h, h2])
      · exact Or.inr (by rw [List.foldl_cons, h, h2]; exact List.mem_cons_self c t)
    · exact Or.inr (List.mem_cons_of_mem _ h)

lemma listMin_le {a : K} {l : List K} (h : a ∈ l) : listMin l ≤ a := by
  cases l with
  | nil => simp at h
  | cons c t =>
    rcases List.mem_cons.mp h with rfl | h2
    · exact foldl_min_le a t
    · exact foldl_min_le_of_mem h2 c

lemma listMin_mem {l : List K} (h : l ≠ []) : listMin l ∈ l := by
  cases l with
  | nil => exact absurd rfl h
  | cons c t =>
    rcases foldl_min_eq_or_mem c t with h2 | h2
    · show t.foldl min c ∈ c :: t
      rw [h2]; exact List.mem_cons_self c t
    · exact List.mem_cons_of_mem _ h2

/- Structural unfolding lemmas. -/

lemma validVals_cons_true (a : K) (as : List K) (ms : List Bool) :
    validVals (a :: as) (true :: ms) = a :: validVals as ms := rfl

lemma validVals_cons_false (a : K) (as : List K) (ms : List Bool) :
    validVals (a :: as) (false :: ms) = validVals as ms := rfl

lemma sentineled_cons (a : K) (as : List K) (m : Bool) (ms : List Bool) (s : K) :
    sentineled (a :: as) (m :: ms) s
      = (a + (if m then 0 else s)) :: sentineled as ms s := rfl

/- Sentinel facts: valid entries appear unshifted in the sentineled slice, and
when the values are small against the sentinel every invalid entry is pushed
past all valid entries. -/

lemma valid_mem_sentineled {x : List K} {mask : List Bool} {v : K} (s : K)
    (h : v ∈ validVals x mask) : v ∈ sentineled x mask s := by
  induction x generalizing mask with
  | nil => cases mask <;> simp [validVals] at h
  | cons a as ih =>
    cases mask with
    | nil => simp [validVals] at h
    | cons m ms =>
      rw [sentineled_cons]
      cases m with
      | true =>
        rw [validVals_cons_true] at h
        rcases List.mem_cons.mp h with rfl | h2
        · simp
        · exact List.mem_cons_of_mem _ (ih h2)
      | false =>
        rw [validVals_cons_false] at h
        exact List.mem_cons_of_mem _ (ih h)

lemma mem_sentineled {x : List K} {mask : List Bool} {s w : K}
    (h : w ∈ sentineled x mask s) : w ∈ validVals x mask ∨ ∃ v ∈ x, w = v + s := by
  induction x generalizing mask with
  | nil => cases mask <;> simp [sentineled] at h
  | cons a as ih =>
    cases mask with
    | nil => simp [sentineled] at h
    | cons m ms =>
      rw [sentineled_cons] at h
      rcases List.mem_cons.mp h with rfl | h2
      · cases m with
        | true => left; rw [validVals_cons_true]; simp
        | false => right; exact ⟨a, List.mem_cons_self a as, by simp⟩
      · rcases ih h2 with h3 | ⟨v, hv, h4⟩
        · left
          cases m with
          | true => rw [validVals_cons_true]; exact List.mem_cons_of_mem _ h3
          | false => rw [validVals_cons_false]; exact h3
        · right; exact ⟨v, List.mem_cons_of_mem _ hv, h4⟩

lemma listMax_sentineled {x : List K} {mask : List Bool} {A S : K}
    (hS : 2 * A < S) (hb : ∀ v ∈ x, |v| ≤ A) (hne : validVals x mask ≠ []) :
    listMax (sentineled x mask (-S)) = listMax (validVals x mask) := by
  obtain ⟨u, hu⟩ := List.exists_mem_of_ne_nil _ hne
  have husent : u ∈ sentineled x mask (-S) := valid_mem_sentineled _ hu
  have hM := listMax_mem (List.ne_nil_of_mem husent)
  rcases mem_sentineled hM with hcase | ⟨v, hv, hveq⟩
  · exact le_antisymm (le_listMax hcase)
      (le_listMax (valid_mem_sentineled _ (listMax_mem hne)))
  · exfalso
    have h1 : u ≤ v + -S := hveq ▸ le_listMax husent
    have h2 := abs_le.mp (hb v hv)
    have h3 := abs_le.mp (hb u (mem_of_mem_validVals hu))
    linarith
  
lemma listMin_sentineled {x : List K} {mask : List Bool} {A S : K}
    (hS : 2 * A < S) (hb : ∀ v ∈ x, |v| ≤ A) (hne : validVals x mask ≠ []) :
    listMin (sentineled x mask S) = listMin (validVals x mask) := by
  obtain ⟨u, hu⟩ := List.exists_mem_of_ne_nil _ hne
  have husent : u ∈ sentineled x mask S := valid_mem_sentineled _ hu
  have hM := listMin_mem (List.ne_nil_of_mem husent)
  rcases mem_sentineled hM with hcase | ⟨v, hv, hveq⟩
  · exact le_antisymm (listMin_le (valid_mem_sentineled _ (listMin_mem hne)))
      (listMin_le hcase)
  · exfalso
    have h1 : v + S ≤ u := hveq ▸ listMin_le husent
    have h2 := abs_le.mp (hb v hv)
    have h3 := abs_le.mp (hb u (mem_of_mem_validVals hu))
    linarith

/- Index-level facts. -/

lemma getD_mem_validVals {x : List K} {mask : List Bool} {i : ℕ}
    (hlen : x.length = mask.length) (hi : i < mask.length)
    (hm : mask.getD i false = true) : x.getD i 0 ∈ validVals x mask := by
  induction x generalizing mask i with
  | nil =>
    cases mask with
    | nil => simp at hi
    | cons m ms => simp at hlen
  | cons a as ih =>
    cases mask with
    | nil => simp at hi
    | cons m ms =>
      cases i with
      | zero =>
        rw [List.getD_cons_zero] at hm ⊢
        subst hm
        rw [validVals_cons_true]
        exact List.mem_cons_self _ _
      | succ n =>
        rw [List.getD_cons_succ] at hm ⊢
        have h1 : as.length = ms.length := by simpa using hlen
        have h2 : n < ms.length := by simpa using hi
        cases m with
        | true => rw [validVals_cons_true]; exact List.mem_cons_of_mem _ (ih h1 h2 hm)
        | false => rw [validVals_cons_false]; exact ih h1 h2 hm

lemma validVals_agree {x xP : List K} {mask : List Bool}
    (hx : x.length = mask.length) (hxP : xP.length = mask.length)
    (h : ∀ i, i < mask.length → mask.getD i false = true → x.getD i 0 = xP.getD i 0) :
    validVals x mask = validVals xP mask := by
  induction mask generalizing x xP with
  | nil =>
    cases x with
    | nil =>
      cases xP with
      | nil => rfl
      | cons b bs => simp at hxP
    | cons a as => simp at hx
  | cons m ms ih =>
    cases x with
    | nil => simp at hx
    | cons a as =>
      cases xP with
      | nil => simp at hxP
      | cons b bs =>
        have h1 : as.length = ms.length := by simpa using hx
        have h2 : bs.length = ms.length := by simpa using hxP
        have htail : validVals as ms = validVals bs ms :=
          ih h1 h2 (fun i hi hm => by
            have h3 := h (i + 1) (by simpa using hi) (by simpa using hm)
            simpa using h3)
        cases m with
        | true =>
          have hhead : a = b := by simpa using h 0 (by simp) (by simp)
          rw [validVals_cons_true, validVals_cons_true, hhead, htail]
        | false =>
          rw [validVals_cons_false, validVals_cons_false, htail]

lemma getD_map_of_lt {f : K → K} {x : List K} {i : ℕ} (hi : i < x.length) :
    (x.map f).getD i 0 = f (x.getD i 0) := by
  have hi2 : i < (x.map f).length := by simpa using hi
  rw [List.getD_eq_getElem (x.map f) 0 hi2, List.getD_eq_getElem x 0 hi, List.getElem_map]

lemma meanOfList_const {l : List K} {c : K} (hne : l ≠ []) (h : ∀ v ∈ l, v = c) :
    meanOfList l = c := by
  unfold meanOfList
  have hlen : l.length ≠ 0 := by
    have := List.length_pos.mpr hne
    omega
  rw [if_neg hlen, List.sum_eq_card_nsmul l c h, nsmul_eq_mul,
    mul_div_cancel_left₀ c (Nat.cast_ne_zero.mpr hlen)]

/- Bounds provided by the sentinel trick on the minmax statistics. -/

lemma valid_le_minmax_x_max {x : List K} {mask : List Bool} {v : K}
    (h : v ∈ validVals x mask) : v ≤ minmax_x_max x mask :=
  le_listMax (valid_mem_sentineled _ h)

lemma minmax_x_min_le_valid {x : List K} {mask : List Bool} {v : K}
    (h : v ∈ validVals x mask) : minmax_x_min x mask ≤ v :=
  listMin_le (valid_mem_sentineled _ h)

lemma minmax_range0_nonneg {x : List K} {mask : List Bool}
    (hne : validVals x mask ≠ []) :
    0 ≤ minmax_x_max x mask - minmax_x_min x mask := by
  obtain ⟨u, hu⟩ := List.exists_mem_of_ne_nil _ hne
  have h1 := minmax_x_min_le_valid hu
  have h2 := valid_le_minmax_x_max hu
  linarith

lemma minmax_x_range_pos {x : List K} {mask : List Bool} {eps : K}
    (hne : validVals x mask ≠ []) (heps : 0 < eps) :
    0 < minmax_x_range x mask eps := by
  have h0 := minmax_range0_nonneg hne
  unfold minmax_x_range
  by_cases h : minmax_x_max x mask - minmax_x_min x mask = 0
  · rw [if_pos h]; linarith
  · rw [if_neg h]
    have h2 : 0 < minmax_x_max x mask - minmax_x_min x mask := lt_of_le_of_ne h0 (Ne.symm h)
    linarith

lemma minmax_range0_le_range {x : List K} {mask : List Bool} {eps : K}
    (hne : validVals x mask ≠ []) (heps : 0 < eps) :
    minmax_x_max x mask - minmax_x_min x mask ≤ minmax_x_range x mask eps := by
  have h0 := minmax_range0_nonneg hne
  unfold minmax_x_range
  by_cases h : minmax_x_max x mask - minmax_x_min x mask = 0
  · rw [if_pos h]; linarith
  · rw [if_neg h]; linarith

/-- C6: on every valid position of a slice whose mask is not all-invalid, the
minmax scaler output lies in `[0, 1]` and the minmax1 scaler output lies in
`[-1, 1]` (the `eps` enlargement of the divisor keeps the values inside the
bounds). -/
theorem minmax_range_bounds {K : Type*} [LinearOrderedField K]
    (x : List K) (mask : List Bool) (eps : K)
    (hlen : x.length = mask.length) (hvalid : mask.any (fun b => b) = true)
    (heps : 0 < eps) :
    ∀ i, i < x.length → mask.getD i false = true →
      0 ≤ (minmax_scaler x mask eps).1.getD i 0 ∧
      (minmax_scaler x mask eps).1.getD i 0 ≤ 1 ∧
      -1 ≤ (minmax1_scaler x mask eps).1.getD i 0 ∧
      (minmax1_scaler x mask eps).1.getD i 0 ≤ 1 := by
  intro i hi hm
  have hne := validVals_ne_nil hlen hvalid
  have hmem : x.getD i 0 ∈ validVals x mask :=
    getD_mem_validVals hlen (hlen ▸ hi) hm
  have hmin := minmax_x_min_le_valid hmem
  have hmax := valid_le_minmax_x_max hmem
  have hpos := minmax_x_range_pos hne heps
  have hle := minmax_range0_le_range hne heps
  have hz : (minmax_scaler x mask eps).1.getD i 0
      = (x.getD i 0 - minmax_x_min x mask) / minmax_x_range x mask eps := by
    show ((x.map fun v => (v - minmax_x_min x mask) / minmax_x_range x mask eps)).getD i 0 = _
    rw [getD_map_of_lt hi]
  have hz1 : (minmax1_scaler x mask eps).1.getD i 0
      = ((x.getD i 0 - minmax_x_min x mask) / minmax_x_range x mask eps) * 2 - 1 := by
    show ((x.map fun v =>
      ((v - minmax_x_min x mask) / minmax_x_range x mask eps) * 2 - 1)).getD i 0 = _
    rw [getD_map_of_lt hi]
  have hu0 : 0 ≤ (x.getD i 0 - minmax_x_min x mask) / minmax_x_range x mask eps :=
    div_nonneg (by linarith) (le_of_lt hpos)
  have hu1 : (x.getD i 0 - minmax_x_min x mask) / minmax_x_range x mask eps ≤ 1 := by
    rw [div_le_one hpos]; linarith
  exact ⟨by rw [hz]; exact hu0, by rw [hz]; exact hu1,
    by rw [hz1]; linarith, by rw [hz1]; linarith⟩

/-- C6 witness: the bounds evaluated at the concrete slice `x = [3, 7]`,
all-valid mask, `eps = 1`, position `0`. -/
theorem minmax_range_bounds_witness :
    0 ≤ (minmax_scaler ([3, 7] : List ℚ) [true, true] 1).1.getD 0 0 ∧
      (minmax_scaler ([3, 7] : List ℚ) [true, true] 1).1.getD 0 0 ≤ 1 ∧
      -1 ≤ (minmax1_scaler ([3, 7] : List ℚ) [true, true] 1).1.getD 0 0 ∧
      (minmax1_scaler ([3, 7] : List ℚ) [true, true] 1).1.getD 0 0 ≤ 1 :=
  minmax_range_bounds [3, 7] [true, true] 1 (by decide) (by decide) (by decide)
    0 (by decide) (by decide)

/-- C9: when a slice has an even number `2k` of valid entries, `masked_median`
returns the lower of the two middle valid values: the entry at index `k - 1`
of the sorted valid entries, which is at most the entry at index `k`, and is
itself one of the valid values (no averaging takes place). -/
theorem masked_median_even_lower {K : Type*} [LinearOrderedField K]
    (x : List K) (mask : List Bool) (k : ℕ) (hk : 0 < k)
    (hlen : (validVals x mask).length = 2 * k) :
    masked_median x mask
        = (List.insertionSort (· ≤ ·) (validVals x mask)).getD (k - 1) 0 ∧
      (List.insertionSort (· ≤ ·) (validVals x mask)).getD (k - 1) 0
        ≤ (List.insertionSort (· ≤ ·) (validVals x mask)).getD k 0 ∧
      masked_median x mask ∈ validVals x mask := by
  have hperm := List.perm_insertionSort ((· ≤ ·) : K → K → Prop) (validVals x mask)
  have hslen : (List.insertionSort (· ≤ ·) (validVals x mask)).length = 2 * k := by
    rw [hperm.length_eq, hlen]
  have h1 : k - 1 < (List.insertionSort (· ≤ ·) (validVals x mask)).length := by omega
  have h2 : k < (List.insertionSort (· ≤ ·) (validVals x mask)).length := by omega
  have hmed : masked_median x mask
      = (List.insertionSort (· ≤ ·) (validVals x mask)).getD (k - 1) 0 := by
    rw [masked_median_eq]
    unfold medianOfList
    have hidx : ((List.insertionSort (· ≤ ·) (validVals x mask)).length - 1) / 2 = k - 1 := by
      rw [hslen]; omega
    rw [hidx, List.get?_eq_getElem?, List.getElem?_eq_getElem h1,
      List.getD_eq_getElem _ _ h1]
    rfl
  have hsorted := List.sorted_insertionSort ((· ≤ ·) : K → K → Prop) (validVals x mask)
  have hrel : (List.insertionSort (· ≤ ·) (validVals x mask)).getD (k - 1) 0
      ≤ (List.insertionSort (· ≤ ·) (validVals x mask)).getD k 0 := by
    rw [List.getD_eq_getElem _ _ h1, List.getD_eq_getElem _ _ h2]
    have hlt : (⟨k - 1, h1⟩ : Fin (List.insertionSort (· ≤ ·) (validVals x mask)).length)
        < ⟨k, h2⟩ := by
      rw [Fin.mk_lt_mk]; omega
    have hrg := hsorted.rel_get_of_lt hlt
    simpa [List.get_eq_getElem] using hrg
  have hmem : masked_median x mask ∈ validVals x mask := by
    rw [hmed, List.getD_eq_getElem _ _ h1]
    exact hperm.mem_iff.mp (List.getElem_mem h1)
  exact ⟨hmed, hrel, hmem⟩

/-- C9 witness: the even-count lower-middle convention on the concrete slice
`x = [3, 1, 4, 1]` with an all-valid mask (`2k = 4` valid entries). -/
theorem masked_median_even_lower_witness :
    masked_median ([3, 1, 4, 1] : List ℚ) [true, true, true, true]
        = (List.insertionSort (· ≤ ·)
            (validVals ([3, 1, 4, 1] : List ℚ) [true, true, true, true])).getD 1 0 ∧
      (List.insertionSort (· ≤ ·)
          (validVals ([3, 1, 4, 1] : List ℚ) [true, true, true, true])).getD 1 0
        ≤ (List.insertionSort (· ≤ ·)
            (validVals ([3, 1, 4, 1] : List ℚ) [true, true, true, true])).getD 2 0 ∧
      masked_median ([3, 1, 4, 1] : List ℚ) [true, true, true, true]
        ∈ validVals ([3, 1, 4, 1] : List ℚ) [true, true, true, true] :=
  masked_median_even_lower [3, 1, 4, 1] [true, true, true, true] 2 (by decide) (by decide)

/- Tensor-level wrappers for the masked reductions: the tensor is a list of
slices along `dim` (the remaining dimensions flattened into the outer list),
mirroring the `dim` / `keepdim` parameters of the source functions. -/

/-- `masked_mean(x, mask, dim, keepdim=True)`: each slice collapses to a
singleton list, so `dim` keeps size `1`. -/
def masked_mean_keep (X : List (List K)) (M : List (List Bool)) : List (List K) :=
  List.zipWith (fun xs ms => [masked_mean xs ms]) X M

/-- `masked_mean(x, mask, dim, keepdim=False)`: the reduced dimension is
dropped. -/
def masked_mean_flat (X : List (List K)) (M : List (List Bool)) : List K :=
  List.zipWith (fun xs ms => masked_mean xs ms) X M

/-- `masked_median(x, mask, dim, keepdim=True)`. -/
def masked_median_keep (X : List (List K)) (M : List (List Bool)) : List (List K) :=
  List.zipWith (fun xs ms => [masked_median xs ms]) X M

/-- `masked_median(x, mask, dim, keepdim=False)`. -/
def masked_median_flat (X : List (List K)) (M : List (List Bool)) : List K :=
  List.zipWith (fun xs ms => masked_median xs ms) X M

lemma length_one_of_mem_singleton_zipWith {α β γ : Type*} {g : α → β → γ}
    {X : List α} {M : List β} {r : List γ}
    (h : r ∈ List.zipWith (fun xs ms => [g xs ms]) X M) : r.length = 1 := by
  induction X generalizing M with
  | nil => simp at h
  | cons a as ih =>
    cases M with
    | nil => simp at h
    | cons m ms =>
      rcases List.mem_cons.mp (by simpa using h) with rfl | h2
      · rfl
      · exact ih h2

/-- C5: the masked reductions compute their statistic over only the valid
entries along `dim` (the NaN-filled invalid entries are skipped), replace the
result of an all-invalid slice by exactly `0`, are total functions (always a
finite value), and the tensor-level output keeps the reduced dimension with
size `1` when `keepdim` is true and drops it when `keepdim` is false. -/
theorem masked_reductions_contract {K : Type*} [LinearOrderedField K]
    (x : List K) (mask : List Bool) (X : List (List K)) (M : List (List Bool))
    (hXM : X.length = M.length) :
    masked_mean x mask = meanOfList (validVals x mask) ∧
      masked_median x mask = medianOfList (validVals x mask) ∧
      (validVals x mask = [] → masked_mean x mask = 0 ∧ masked_median x mask = 0) ∧
      (masked_mean_keep X M).length = X.length ∧
      (∀ r ∈ masked_mean_keep X M, r.length = 1) ∧
      (masked_median_keep X M).length = X.length ∧
      (∀ r ∈ masked_median_keep X M, r.length = 1) ∧
      (masked_mean_flat X M).length = X.length ∧
      (masked_median_flat X M).length = X.length := by
  refine ⟨masked_mean_eq x mask, masked_median_eq x mask, ?_, ?_, ?_, ?_, ?_, ?_, ?_⟩
  · intro h
    constructor
    · rw [masked_mean_eq, h]; rfl
    · rw [masked_median_eq, h]; rfl
  · simp [masked_mean_keep, List.length_zipWith, hXM]
  · exact fun r hr => length_one_of_mem_singleton_zipWith hr
  · simp [masked_median_keep, List.length_zipWith, hXM]
  · exact fun r hr => length_one_of_mem_singleton_zipWith hr
  · simp [masked_mean_flat, List.length_zipWith, hXM]
  · simp [masked_median_flat, List.length_zipWith, hXM]

/-- C5 witness: the contract evaluated at the all-invalid slice `x = [2]`,
`mask = [false]` and the one-slice tensor `X = [[2]]`, `M = [[true]]`. -/
theorem masked_reductions_contract_witness :
    masked_mean ([2] : List ℚ) [false] = meanOfList (validVals ([2] : List ℚ) [false]) ∧
      masked_median ([2] : List ℚ) [false]
        = medianOfList (validVals ([2] : List ℚ) [false]) ∧
      (validVals ([2] : List ℚ) [false] = [] →
        masked_mean ([2] : List ℚ) [false] = 0 ∧ masked_median ([2] : List ℚ) [false] = 0) ∧
      (masked_mean_keep ([[2]] : List (List ℚ)) [[true]]).length = 1 ∧
      (∀ r ∈ masked_mean_keep ([[2]] : List (List ℚ)) [[true]], r.length = 1) ∧
      (masked_median_keep ([[2]] : List (List ℚ)) [[true]]).length = 1 ∧
      (∀ r ∈ masked_median_keep ([[2]] : List (List ℚ)) [[true]], r.length = 1) ∧
      (masked_mean_flat ([[2]] : List (List ℚ)) [[true]]).length = 1 ∧
      (masked_median_flat ([[2]] : List (List ℚ)) [[true]]).length = 1 :=
  masked_reductions_contract [2] [false] [[2]] [[true]] (by decide)

/- Real-valued scalers: `std_scaler`, `robust_scaler`, `invariant_scaler` use
`torch.sqrt` (and `invariant` also `arcsinh`), so they are embedded over ℝ. -/

/-- The literal `0.6744897501960817` of the zero-mad fallback
(`x_mad_aux = x_stds * 0.6744897501960817`). -/
noncomputable def madConst : ℝ := 0.6744897501960817

/-- The local `x_stds` shared by `std_scaler`, `robust_scaler` and
`invariant_scaler`: `torch.sqrt(masked_mean((x - x_means)**2, mask))`. -/
noncomputable def x_stds_stat (x : List ℝ) (mask : List Bool) : ℝ :=
  Real.sqrt (masked_mean (x.map fun v => (v - masked_mean x mask) ^ 2) mask)

/-- The guarded scale of `std_scaler`: `x_stds`, replaced by `1.0` when zero,
plus `eps`. -/
noncomputable def std_x_stds (x : List ℝ) (mask : List Bool) (eps : ℝ) : ℝ :=
  (if x_stds_stat x mask = 0 then 1 else x_stds_stat x mask) + eps

/-- Embeds `std_scaler` on one slice: returns `(z, x_means, x_stds)`. -/
noncomputable def std_scaler (x : List ℝ) (mask : List Bool) (eps : ℝ) : List ℝ × ℝ × ℝ :=
  ((x.map fun v => (v - masked_mean x mask) / std_x_stds x mask eps),
    masked_mean x mask, std_x_stds x mask eps)

/-- The zero-mad branch selection of `robust_scaler` / `invariant_scaler`:
`x_mad * (x_mad > 0) + x_mad_aux * (x_mad == 0)` with the booleans as 0/1
factors, where `x_mad_aux = x_stds * 0.6744897501960817`. -/
noncomputable def robust_x_mad1 (x : List ℝ) (mask : List Bool) : ℝ :=
  x_mad_raw x mask * (if 0 < x_mad_raw x mask then 1 else 0)
    + (x_stds_stat x mask * madConst) * (if x_mad_raw x mask = 0 then 1 else 0)

/-- The guarded mad of `robust_scaler` / `invariant_scaler` after both
fallbacks: the branch selection, replaced by `1.0` when zero, plus `eps`. -/
noncomputable def robust_x_mad (x : List ℝ) (mask : List Bool) (eps : ℝ) : ℝ :=
  (if robust_x_mad1 x mask = 0 then 1 else robust_x_mad1 x mask) + eps

/-- Embeds `robust_scaler` on one slice: returns `(z, x_median, x_mad)`. -/
noncomputable def robust_scaler (x : List ℝ) (mask : List Bool) (eps : ℝ) : List ℝ × ℝ × ℝ :=
  ((x.map fun v => (v - masked_median x mask) / robust_x_mad x mask eps),
    masked_median x mask, robust_x_mad x mask eps)

/-- Embeds `invariant_scaler` on one slice: as `robust_scaler` with the
output passed through `torch.arcsinh`. -/
noncomputable def invariant_scaler (x : List ℝ) (mask : List Bool) (eps : ℝ) : List ℝ × ℝ × ℝ :=
  ((x.map fun v => Real.arsinh ((v - masked_median x mask) / robust_x_mad x mask eps)),
    masked_median x mask, robust_x_mad x mask eps)

/-- Embeds `inv_invariant_scaler`: `torch.sinh(z) * x_mad + x_median`. -/
noncomputable def inv_invariant_scaler (z : List ℝ) (x_median x_mad : ℝ) : List ℝ :=
  z.map fun w => Real.sinh w * x_mad + x_median

/-- The scaler names accepted by `TemporalNorm`; `snone` is the `None` alias
mapping to the identity scaler. -/
inductive ScalerType
  | snone | identity | standard | robust | minmax | minmax1 | invariant
deriving DecidableEq

/-- The `scalers` dispatch table of `TemporalNorm.__init__`. -/
noncomputable def scalerF : ScalerType → List ℝ → List Bool → ℝ → List ℝ × ℝ × ℝ
  | ScalerType.snone => identity_scaler
  | ScalerType.identity => identity_scaler
  | ScalerType.standard => std_scaler
  | ScalerType.robust => robust_scaler
  | ScalerType.minmax => minmax_scaler
  | ScalerType.minmax1 => minmax1_scaler
  | ScalerType.invariant => invariant_scaler

/-- The `inverse_scalers` dispatch table of `TemporalNorm.__init__`. -/
noncomputable def inverseScalerF : ScalerType → List ℝ → ℝ → ℝ → List ℝ
  | ScalerType.snone => inv_identity_scaler
  | ScalerType.identity => inv_identity_scaler
  | ScalerType.standard => inv_std_scaler
  | ScalerType.robust => inv_robust_scaler
  | ScalerType.minmax => inv_minmax_scaler
  | ScalerType.minmax1 => inv_minmax1_scaler
  | ScalerType.invariant => inv_invariant_scaler

/-- State of a `TemporalNorm` instance: the configuration fixed at
construction plus the cached statistics `self.x_shift` / `self.x_scale`
(absent before the first `transform` call, when the attribute accesses of
`inverse_transform` fail). -/
structure TemporalNorm where
  scaler_type : ScalerType
  eps : ℝ
  x_shift : Option ℝ
  x_scale : Option ℝ

/-- `TemporalNorm(scaler_type=…, eps=…)`: a fresh instance with no cached
statistics. -/
noncomputable def TemporalNorm.init (t : ScalerType) (eps : ℝ) : TemporalNorm :=
  ⟨t, eps, none, none⟩

/-- `transform(x, mask)`: apply the configured scaler forward function, store
`(x_shift, x_scale)` on the instance (overwriting any previous values), and
return the scaled slice. -/
noncomputable def TemporalNorm.transform (s : TemporalNorm) (x : List ℝ) (mask : List Bool) :
    List ℝ × TemporalNorm :=
  ((scalerF s.scaler_type x mask s.eps).1,
    ⟨s.scaler_type, s.eps, some (scalerF s.scaler_type x mask s.eps).2.1,
      some (scalerF s.scaler_type x mask s.eps).2.2⟩)

/-- `inverse_transform(z, x_shift=None, x_scale=None)`: omitted statistics
default to the cached ones; `none` is the `StatePrecondition` failure (the
attribute access error) when neither an argument nor a cached value exists. -/
noncomputable def TemporalNorm.inverse_transform (s : TemporalNorm) (z : List ℝ)
    (xsh xsc : Option ℝ) : Option (List ℝ) :=
  match (match xsh with | some v => some v | none => s.x_shift),
      (match xsc with | some v => some v | none => s.x_scale) with
  | some sh, some sc => some (inverseScalerF s.scaler_type z sh sc)
  | some _, none => none
  | none, _ => none

/- Positivity of the guarded scale statistics. -/

lemma x_stds_stat_nonneg (x : List ℝ) (mask : List Bool) : 0 ≤ x_stds_stat x mask :=
  Real.sqrt_nonneg _

lemma madConst_pos : 0 < madConst := by norm_num [madConst]

lemma std_x_stds_ge (x : List ℝ) (mask : List Bool) {eps : ℝ} (heps : 0 < eps) :
    eps ≤ std_x_stds x mask eps ∧ 0 < std_x_stds x mask eps := by
  have h0 := x_stds_stat_nonneg x mask
  unfold std_x_stds
  by_cases h : x_stds_stat x mask = 0
  · rw [if_pos h]; constructor <;> linarith
  · rw [if_neg h]
    have h2 : 0 < x_stds_stat x mask := lt_of_le_of_ne h0 (Ne.symm h)
    constructor <;> linarith

lemma x_mad_raw_nonneg (x : List ℝ) (mask : List Bool) : 0 ≤ x_mad_raw x mask := by
  unfold x_mad_raw
  apply masked_median_nonneg
  intro v hv
  obtain ⟨u, hu, rfl⟩ := List.mem_map.mp hv
  exact abs_nonneg _

lemma robust_x_mad1_nonneg (x : List ℝ) (mask : List Bool) : 0 ≤ robust_x_mad1 x mask := by
  unfold robust_x_mad1
  have h1 := x_mad_raw_nonneg x mask
  have h2 := x_stds_stat_nonneg x mask
  have h3 := madConst_pos
  have ha : (0 : ℝ) ≤ if 0 < x_mad_raw x mask then 1 else 0 := by split <;> norm_num
  have hb : (0 : ℝ) ≤ if x_mad_raw x mask = 0 then 1 else 0 := by split <;> norm_num
  have hc := mul_nonneg h1 ha
  have hd := mul_nonneg (mul_nonneg h2 (le_of_lt h3)) hb
  linarith

lemma robust_x_mad_ge (x : List ℝ) (mask : List Bool) {eps : ℝ} (heps : 0 < eps) :
    eps ≤ robust_x_mad x mask eps ∧ 0 < robust_x_mad x mask eps := by
  have h0 := robust_x_mad1_nonneg x mask
  unfold robust_x_mad
  by_cases h : robust_x_mad1 x mask = 0
  · rw [if_pos h]; constructor <;> linarith
  · rw [if_neg h]
    have h2 : 0 < robust_x_mad1 x mask := lt_of_le_of_ne h0 (Ne.symm h)
    constructor <;> linarith

lemma minmax_x_range_ge {x : List K} {mask : List Bool} {eps : K}
    (hne : validVals x mask ≠ []) (heps : 0 < eps) :
    eps ≤ minmax_x_range x mask eps := by
  have h0 := minmax_range0_nonneg hne
  unfold minmax_x_range
  by_cases h : minmax_x_max x mask - minmax_x_min x mask = 0
  · rw [if_pos h]; linarith
  · rw [if_neg h]
    have h2 : 0 < minmax_x_max x mask - minmax_x_min x mask := lt_of_le_of_ne h0 (Ne.symm h)
    linarith

/-- Round-trip core: on any slice whose mask is not all-invalid, the inverse
scaler applied to the forward scaler output and statistics recovers the slice
exactly, for every scaler type. -/
lemma scaler_roundtrip (t : ScalerType) (x : List ℝ) (mask : List Bool) {eps : ℝ}
    (hlen : x.length = mask.length) (hvalid : mask.any (fun b => b) = true)
    (heps : 0 < eps) :
    inverseScalerF t (scalerF t x mask eps).1 (scalerF t x mask eps).2.1
      (scalerF t x mask eps).2.2 = x := by
  have hne := validVals_ne_nil hlen hvalid
  cases t with
  | snone => rfl
  | identity => rfl
  | standard =>
    have hsc := (std_x_stds_ge x mask heps).2
    show inv_std_scaler (std_scaler x mask eps).1 (masked_mean x mask)
      (std_x_stds x mask eps) = x
    unfold inv_std_scaler std_scaler
    rw [List.map_map]
    refine (List.map_congr_left fun a ha => ?_).trans (List.map_id x)
    show (a - masked_mean x mask) / std_x_stds x mask eps * std_x_stds x mask eps
      + masked_mean x mask = id a
    rw [div_mul_cancel₀ _ (ne_of_gt hsc), sub_add_cancel]
    rfl
  | robust =>
    have hsc := (robust_x_mad_ge x mask heps).2
    show inv_robust_scaler (robust_scaler x mask eps).1 (masked_median x mask)
      (robust_x_mad x mask eps) = x
    unfold inv_robust_scaler robust_scaler
    rw [List.map_map]
    refine (List.map_congr_left fun a ha => ?_).trans (List.map_id x)
    show (a - masked_median x mask) / robust_x_mad x mask eps * robust_x_mad x mask eps
      + masked_median x mask = id a
    rw [div_mul_cancel₀ _ (ne_of_gt hsc), sub_add_cancel]
    rfl
  | invariant =>
    have hsc := (robust_x_mad_ge x mask heps).2
    show inv_invariant_scaler (invariant_scaler x mask eps).1 (masked_median x mask)
      (robust_x_mad x mask eps) = x
    unfold inv_invariant_scaler invariant_scaler
    rw [List.map_map]
    refine (List.map_congr_left fun a ha => ?_).trans (List.map_id x)
    show Real.sinh (Real.arsinh ((a - masked_median x mask) / robust_x_mad x mask eps))
      * robust_x_mad x mask eps + masked_median x mask = id a
    rw [Real.sinh_arsinh, div_mul_cancel₀ _ (ne_of_gt hsc), sub_add_cancel]
    rfl
  | minmax =>
    have hsc := minmax_x_range_pos hne heps
    show inv_minmax_scaler (minmax_scaler x mask eps).1 (minmax_x_min x mask)
      (minmax_x_range x mask eps) = x
    unfold inv_minmax_scaler minmax_scaler
    rw [List.map_map]
    refine (List.map_congr_left fun a ha => ?_).trans (List.map_id x)
    show (a - minmax_x_min x mask) / minmax_x_range x mask eps * minmax_x_range x mask eps
      + minmax_x_min x mask = id a
    rw [div_mul_cancel₀ _ (ne_of_gt hsc), sub_add_cancel]
    rfl
  | minmax1 =>
    have hsc := minmax_x_range_pos hne heps
    show inv_minmax1_scaler (minmax1_scaler x mask eps).1 (minmax_x_min x mask)
      (minmax_x_range x mask eps) = x
    unfold inv_minmax1_scaler minmax1_scaler
    rw [List.map_map]
    refine (List.map_congr_left fun a ha => ?_).trans (List.map_id x)
    show ((a - minmax_x_min x mask) / minmax_x_range x mask eps * 2 - 1 + 1) / 2
      * minmax_x_range x mask eps + minmax_x_min x mask = id a
    rw [show ((a - minmax_x_min x mask) / minmax_x_range x mask eps * 2 - 1 + 1) / 2
      = (a - minmax_x_min x mask) / minmax_x_range x mask eps by ring]
    rw [div_mul_cancel₀ _ (ne_of_gt hsc), sub_add_cancel]
    rfl

/-- C1: for every scaler type (including the `None` alias), on any slice of
finite values whose mask is not all-invalid, the facade's `transform`
followed by `inverse_transform` (with the statistics defaulted from the
cache) reconstructs the input within absolute tolerance `1e-5` at every
position, the invalid-mask positions included (the reconstruction is exact in
exact arithmetic). -/
theorem facade_roundtrip (t : ScalerType) (x : List ℝ) (mask : List Bool) (eps : ℝ)
    (hlen : x.length = mask.length) (hvalid : mask.any (fun b => b) = true)
    (heps : 0 < eps) :
    ∃ r, ((TemporalNorm.init t eps).transform x mask).2.inverse_transform
        (((TemporalNorm.init t eps).transform x mask).1) none none = some r ∧
      r.length = x.length ∧
      ∀ i, i < x.length → |r.getD i 0 - x.getD i 0| ≤ 1 / 100000 := by
  refine ⟨x, ?_, rfl, ?_⟩
  · show some (inverseScalerF t (scalerF t x mask eps).1 (scalerF t x mask eps).2.1
      (scalerF t x mask eps).2.2) = some x
    rw [scaler_roundtrip t x mask hlen hvalid heps]
  · intro i hi
    rw [sub_self, abs_zero]
    norm_num

/-- C1 witness: the round trip through the facade on the concrete slice
`x = [2, 5]`, `mask = [true, false]`, robust scaler, `eps = 1`. -/
theorem facade_roundtrip_witness :
    ∃ r, ((TemporalNorm.init ScalerType.robust 1).transform [2, 5] [true, false]).2.inverse_transform
        (((TemporalNorm.init ScalerType.robust 1).transform [2, 5] [true, false]).1) none none
        = some r ∧
      r.length = ([2, 5] : List ℝ).length ∧
      ∀ i, i < ([2, 5] : List ℝ).length →
        |r.getD i 0 - ([2, 5] : List ℝ).getD i 0| ≤ 1 / 100000 :=
  facade_roundtrip ScalerType.robust [2, 5] [true, false] 1 rfl (by decide) zero_lt_one

/-- C7: the facade's cache is overwritten by each `transform`: after
`transform(x_a)` then `transform(x_b)`, `inverse_transform` with omitted
statistics applied to the second result reconstructs `x_b` exactly (hence
within tolerance), and not `x_a` whenever the two inputs differ. -/
theorem facade_overwrites_stats (t : ScalerType) (xa : List ℝ) (maska : List Bool)
    (xb : List ℝ) (maskb : List Bool) (eps : ℝ)
    (hlen : xb.length = maskb.length) (hvalid : maskb.any (fun b => b) = true)
    (heps : 0 < eps) :
    ((((TemporalNorm.init t eps).transform xa maska).2.transform xb maskb).2.inverse_transform
        ((((TemporalNorm.init t eps).transform xa maska).2.transform xb maskb).1) none none
      = some xb) ∧
      (xa ≠ xb →
        ((((TemporalNorm.init t eps).transform xa maska).2.transform xb maskb).2.inverse_transform
          ((((TemporalNorm.init t eps).transform xa maska).2.transform xb maskb).1) none none
          ≠ some xa)) := by
  have hmain : (((TemporalNorm.init t eps).transform xa maska).2.transform
      xb maskb).2.inverse_transform
      ((((TemporalNorm.init t eps).transform xa maska).2.transform xb maskb).1) none none
      = some xb := by
    show some (inverseScalerF t (scalerF t xb maskb eps).1 (scalerF t xb maskb eps).2.1
      (scalerF t xb maskb eps).2.2) = some xb
    rw [scaler_roundtrip t xb maskb hlen hvalid heps]
  refine ⟨hmain, fun hne hc => hne ?_⟩
  rw [hmain] at hc
  exact (Option.some_injective _ hc).symm

/-- C7 witness: concrete instance with the standard scaler,
`x_a = [1, 2]`, `x_b = [4, 9]`, all-valid masks, `eps = 1`. -/
theorem facade_overwrites_stats_witness :
    ((((TemporalNorm.init ScalerType.standard 1).transform [1, 2] [true, true]).2.transform
        [4, 9] [true, true]).2.inverse_transform
        ((((TemporalNorm.init ScalerType.standard 1).transform [1, 2] [true, true]).2.transform
          [4, 9] [true, true]).1) none none
      = some [4, 9]) ∧
      (([1, 2] : List ℝ) ≠ [4, 9] →
        ((((TemporalNorm.init ScalerType.standard 1).transform [1, 2] [true, true]).2.transform
          [4, 9] [true, true]).2.inverse_transform
          ((((TemporalNorm.init ScalerType.standard 1).transform [1, 2] [true, true]).2.transform
            [4, 9] [true, true]).1) none none
          ≠ some [1, 2])) :=
  facade_overwrites_stats ScalerType.standard [1, 2] [true, true] [4, 9] [true, true] 1
    rfl (by decide) zero_lt_one

/-- C8: `inverse_transform` with omitted statistics on a fresh facade fails
(the `StatePrecondition` error, `none` here); with explicitly supplied
statistics it succeeds using them; and after a `transform` call it succeeds
using the statistics that call stored. -/
theorem inverse_transform_stats_defaulting (t : ScalerType) (eps sh sc : ℝ)
    (z x : List ℝ) (mask : List Bool) :
    (TemporalNorm.init t eps).inverse_transform z none none = none ∧
      (TemporalNorm.init t eps).inverse_transform z (some sh) (some sc)
        = some (inverseScalerF t z sh sc) ∧
      (((TemporalNorm.init t eps).transform x mask).2.inverse_transform z none none
        = some (inverseScalerF t z (scalerF t x mask eps).2.1 (scalerF t x mask eps).2.2)) :=
  ⟨rfl, rfl, rfl⟩

/- Degenerate slices. -/

lemma masked_mean_const {x : List K} {mask : List Bool} {c : K}
    (hne : validVals x mask ≠ []) (hc : ∀ v ∈ validVals x mask, v = c) :
    masked_mean x mask = c := by
  rw [masked_mean_eq]; exact meanOfList_const hne hc

lemma x_stds_stat_zero_of_const {x : List ℝ} {mask : List Bool} {c : ℝ}
    (hne : validVals x mask ≠ []) (hc : ∀ v ∈ validVals x mask, v = c) :
    x_stds_stat x mask = 0 := by
  have hμ : masked_mean x mask = c := masked_mean_const hne hc
  unfold x_stds_stat
  have hvar : masked_mean (x.map fun v => (v - masked_mean x mask) ^ 2) mask = 0 := by
    rw [masked_mean_eq, validVals_map]
    apply meanOfList_const
    · intro hnil
      exact hne (List.map_eq_nil.mp hnil)
    · intro w hw
      obtain ⟨v, hv, rfl⟩ := List.mem_map.mp hw
      rw [hμ, hc v hv]
      norm_num
  rw [hvar, Real.sqrt_zero]

/-- C4: a zero-variance slice (all valid entries equal) makes the standard
scaler return scale exactly `1 + eps`, with no error and no NaN; a
zero-raw-mad slice makes the robust and invariant scalers return
`x_stds * 0.6744897501960817 + eps` instead, falling back to `1 + eps`
exactly when that derived product is also zero. -/
theorem degenerate_slice_scales (x : List ℝ) (mask : List Bool) (eps : ℝ) :
    ((validVals x mask ≠ [] ∧ ∃ c, ∀ v ∈ validVals x mask, v = c) →
        (std_scaler x mask eps).2.2 = 1 + eps) ∧
      (x_mad_raw x mask = 0 →
        (robust_scaler x mask eps).2.2
            = (if x_stds_stat x mask * madConst = 0 then 1
                else x_stds_stat x mask * madConst) + eps ∧
          (invariant_scaler x mask eps).2.2
            = (if x_stds_stat x mask * madConst = 0 then 1
                else x_stds_stat x mask * madConst) + eps) := by
  constructor
  · rintro ⟨hne, c, hc⟩
    show std_x_stds x mask eps = 1 + eps
    unfold std_x_stds
    rw [x_stds_stat_zero_of_const hne hc, if_pos rfl]
  · intro h
    have hmad1 : robust_x_mad1 x mask = x_stds_stat x mask * madConst := by
      unfold robust_x_mad1
      rw [h]
      simp
    have hscale : robust_x_mad x mask eps
        = (if x_stds_stat x mask * madConst = 0 then 1
            else x_stds_stat x mask * madConst) + eps := by
      unfold robust_x_mad
      rw [hmad1]
    exact ⟨hscale, hscale⟩

/-- C4 witness: the degenerate-slice scales evaluated at the constant slice
`x = [0]`, `mask = [true]`, `eps = 1` (zero variance and zero raw mad). -/
theorem degenerate_slice_scales_witness :
    (std_scaler ([0] : List ℝ) [true] 1).2.2 = 1 + 1 ∧
      (robust_scaler ([0] : List ℝ) [true] 1).2.2
          = (if x_stds_stat [0] [true] * madConst = 0 then 1
              else x_stds_stat [0] [true] * madConst) + 1 ∧
      (invariant_scaler ([0] : List ℝ) [true] 1).2.2
          = (if x_stds_stat [0] [true] * madConst = 0 then 1
              else x_stds_stat [0] [true] * madConst) + 1 := by
  refine ⟨(degenerate_slice_scales [0] [true] 1).1 ⟨?_, 0, ?_⟩,
    ((degenerate_slice_scales [0] [true] 1).2 ?_).1,
    ((degenerate_slice_scales [0] [true] 1).2 ?_).2⟩
  · simp [validVals, List.zip_cons_cons, List.filterMap_cons]
  · simp [validVals, List.zip_cons_cons, List.filterMap_cons]
  · simp [x_mad_raw, masked_median, masked_fill, nanmedian, List.zipWith_cons_cons,
      List.filterMap_cons, List.insertionSort, List.orderedInsert]
  · simp [x_mad_raw, masked_median, masked_fill, nanmedian, List.zipWith_cons_cons,
      List.filterMap_cons, List.insertionSort, List.orderedInsert]

/-- C10 (amended): every scaler that divides returns a scale of at least
`eps` (hence strictly positive), and the identity scaler a scale of exactly
`1` — for the standard, robust and invariant scalers on every input, including
all-invalid and degenerate slices, and for the minmax and minmax1 scalers on
every slice with at least one valid entry.  (On an all-invalid slice the
minmax scale is negative: see the counterexample.) -/
theorem scale_strict_positivity (x : List ℝ) (mask : List Bool) (eps : ℝ)
    (heps : 0 < eps) :
    (eps ≤ (std_scaler x mask eps).2.2 ∧ 0 < (std_scaler x mask eps).2.2) ∧
      (eps ≤ (robust_scaler x mask eps).2.2 ∧ 0 < (robust_scaler x mask eps).2.2) ∧
      (eps ≤ (invariant_scaler x mask eps).2.2 ∧ 0 < (invariant_scaler x mask eps).2.2) ∧
      (identity_scaler x mask eps).2.2 = 1 ∧
      (x.length = mask.length → mask.any (fun b => b) = true →
        eps ≤ (minmax_scaler x mask eps).2.2 ∧ 0 < (minmax_scaler x mask eps).2.2 ∧
          eps ≤ (minmax1_scaler x mask eps).2.2 ∧ 0 < (minmax1_scaler x mask eps).2.2) := by
  refine ⟨⟨(std_x_stds_ge x mask heps).1, (std_x_stds_ge x mask heps).2⟩,
    ⟨(robust_x_mad_ge x mask heps).1, (robust_x_mad_ge x mask heps).2⟩,
    ⟨(robust_x_mad_ge x mask heps).1, (robust_x_mad_ge x mask heps).2⟩,
    rfl, ?_⟩
  intro hlen hvalid
  have hne := validVals_ne_nil hlen hvalid
  exact ⟨minmax_x_range_ge hne heps, minmax_x_range_pos hne heps,
    minmax_x_range_ge hne heps, minmax_x_range_pos hne heps⟩

/-- C10 witness: the positivity bounds evaluated at `x = [0]`,
`mask = [true]`, `eps = 1`. -/
theorem scale_strict_positivity_witness :
    (1 ≤ (std_scaler ([0] : List ℝ) [true] 1).2.2 ∧
        0 < (std_scaler ([0] : List ℝ) [true] 1).2.2) ∧
      (1 ≤ (robust_scaler ([0] : List ℝ) [true] 1).2.2 ∧
        0 < (robust_scaler ([0] : List ℝ) [true] 1).2.2) ∧
      (1 ≤ (invariant_scaler ([0] : List ℝ) [true] 1).2.2 ∧
        0 < (invariant_scaler ([0] : List ℝ) [true] 1).2.2) ∧
      (identity_scaler ([0] : List ℝ) [true] 1).2.2 = 1 ∧
      (([0] : List ℝ).length = [true].length → [true].any (fun b => b) = true →
        1 ≤ (minmax_scaler ([0] : List ℝ) [true] 1).2.2 ∧
          0 < (minmax_scaler ([0] : List ℝ) [true] 1).2.2 ∧
          1 ≤ (minmax1_scaler ([0] : List ℝ) [true] 1).2.2 ∧
          0 < (minmax1_scaler ([0] : List ℝ) [true] 1).2.2) :=
  scale_strict_positivity [0] [true] 1 zero_lt_one

/-- C10 counterexample: on the all-invalid slice `x = [0]`, `mask = [false]`
with the default `eps = 1e-6`, the minmax scaler returns the scale
`-2e12 + 1e-6`, which is negative — the claimed strict positivity fails for
all-invalid slices under minmax/minmax1. -/
theorem scale_positivity_counterexample :
    (minmax_scaler ([0] : List ℚ) [false] (1 / 1000000)).2.2 < 0 := by
  norm_num [minmax_scaler, minmax_x_range, minmax_x_max, minmax_x_min, sentineled,
    listMax, listMin, List.zipWith_cons_cons]

/- Congruence of the statistics under changes at invalid positions only. -/

lemma masked_mean_congr {x xP : List K} {mask : List Bool}
    (hvv : validVals x mask = validVals xP mask) :
    masked_mean x mask = masked_mean xP mask := by
  rw [masked_mean_eq, masked_mean_eq, hvv]

lemma masked_median_congr {x xP : List K} {mask : List Bool}
    (hvv : validVals x mask = validVals xP mask) :
    masked_median x mask = masked_median xP mask := by
  rw [masked_median_eq, masked_median_eq, hvv]

lemma masked_mean_map_congr (f : K → K) {x xP : List K} {mask : List Bool}
    (hvv : validVals x mask = validVals xP mask) :
    masked_mean (x.map f) mask = masked_mean (xP.map f) mask := by
  rw [masked_mean_eq, masked_mean_eq, validVals_map, validVals_map, hvv]

lemma masked_median_map_congr (f : K → K) {x xP : List K} {mask : List Bool}
    (hvv : validVals x mask = validVals xP mask) :
    masked_median (x.map f) mask = masked_median (xP.map f) mask := by
  rw [masked_median_eq, masked_median_eq, validVals_map, validVals_map, hvv]

lemma x_stds_stat_congr {x xP : List ℝ} {mask : List Bool}
    (hvv : validVals x mask = validVals xP mask) :
    x_stds_stat x mask = x_stds_stat xP mask := by
  unfold x_stds_stat
  rw [masked_mean_congr hvv]
  exact congrArg Real.sqrt
    (masked_mean_map_congr (fun v => (v - masked_mean xP mask) ^ 2) hvv)

lemma x_mad_raw_congr {x xP : List ℝ} {mask : List Bool}
    (hvv : validVals x mask = validVals xP mask) :
    x_mad_raw x mask = x_mad_raw xP mask := by
  unfold x_mad_raw
  rw [masked_median_congr hvv]
  exact masked_median_map_congr (fun v => |v - masked_median xP mask|) hvv

lemma robust_x_mad_congr (eps : ℝ) {x xP : List ℝ} {mask : List Bool}
    (hvv : validVals x mask = validVals xP mask) :
    robust_x_mad x mask eps = robust_x_mad xP mask eps := by
  unfold robust_x_mad robust_x_mad1
  rw [x_mad_raw_congr hvv, x_stds_stat_congr hvv]

lemma minmax_x_max_congr {x xP : List K} {mask : List Bool}
    (hb : ∀ v ∈ x, |v| ≤ 100000000000) (hbP : ∀ v ∈ xP, |v| ≤ 100000000000)
    (hne : validVals x mask ≠ []) (hvv : validVals x mask = validVals xP mask) :
    minmax_x_max x mask = minmax_x_max xP mask := by
  have hS : 2 * (100000000000 : K) < 1000000000000 := by norm_num
  unfold minmax_x_max
  rw [listMax_sentineled hS hb hne, listMax_sentineled hS hbP (hvv ▸ hne), hvv]

lemma minmax_x_min_congr {x xP : List K} {mask : List Bool}
    (hb : ∀ v ∈ x, |v| ≤ 100000000000) (hbP : ∀ v ∈ xP, |v| ≤ 100000000000)
    (hne : validVals x mask ≠ []) (hvv : validVals x mask = validVals xP mask) :
    minmax_x_min x mask = minmax_x_min xP mask := by
  have hS : 2 * (100000000000 : K) < 1000000000000 := by norm_num
  unfold minmax_x_min
  rw [listMin_sentineled hS hb hne, listMin_sentineled hS hbP (hvv ▸ hne), hvv]

/-- C3 (amended): for every scaler forward transform, two inputs that agree at
all valid positions produce identical `(shift, scale)` statistics and
identical outputs at every valid position — unconditionally for the identity,
standard, robust and invariant scalers, and for minmax/minmax1 provided the
mask has at least one valid entry and all entries of both inputs are at most
`1e11` in absolute value (so that the `∓1e12` sentinel dominates invalid
entries). -/
theorem masked_entry_invariance (t : ScalerType) (x xP : List ℝ) (mask : List Bool)
    (eps : ℝ) (hx : x.length = mask.length) (hxP : xP.length = mask.length)
    (hagree : ∀ i, i < mask.length → mask.getD i false = true → x.getD i 0 = xP.getD i 0)
    (hside : t = ScalerType.minmax ∨ t = ScalerType.minmax1 →
      (∀ v ∈ x, |v| ≤ 100000000000) ∧ (∀ v ∈ xP, |v| ≤ 100000000000) ∧
        mask.any (fun b => b) = true) :
    (scalerF t x mask eps).2.1 = (scalerF t xP mask eps).2.1 ∧
      (scalerF t x mask eps).2.2 = (scalerF t xP mask eps).2.2 ∧
      ∀ i, i < mask.length → mask.getD i false = true →
        (scalerF t x mask eps).1.getD i 0 = (scalerF t xP mask eps).1.getD i 0 := by
  have hvv : validVals x mask = validVals xP mask := validVals_agree hx hxP hagree
  cases t with
  | snone => exact ⟨rfl, rfl, fun i hi hm => hagree i hi hm⟩
  | identity => exact ⟨rfl, rfl, fun i hi hm => hagree i hi hm⟩
  | standard =>
    have hμ := masked_mean_congr hvv
    have hsc : std_x_stds x mask eps = std_x_stds xP mask eps := by
      unfold std_x_stds; rw [x_stds_stat_congr hvv]
    refine ⟨hμ, hsc, fun i hi hm => ?_⟩
    have hix : i < x.length := by omega
    have hixP : i < xP.length := by omega
    show (x.map fun v => (v - masked_mean x mask) / std_x_stds x mask eps).getD i 0
      = (xP.map fun v => (v - masked_mean xP mask) / std_x_stds xP mask eps).getD i 0
    rw [getD_map_of_lt hix, getD_map_of_lt hixP, hagree i hi hm, hμ, hsc]
  | robust =>
    have hmed := masked_median_congr hvv
    have hsc := robust_x_mad_congr eps hvv
    refine ⟨hmed, hsc, fun i hi hm => ?_⟩
    have hix : i < x.length := by omega
    have hixP : i < xP.length := by omega
    show (x.map fun v => (v - masked_median x mask) / robust_x_mad x mask eps).getD i 0
      = (xP.map fun v => (v - masked_median xP mask) / robust_x_mad xP mask eps).getD i 0
    rw [getD_map_of_lt hix, getD_map_of_lt hixP, hagree i hi hm, hmed, hsc]
  | invariant =>
    have hmed := masked_median_congr hvv
    have hsc := robust_x_mad_congr eps hvv
    refine ⟨hmed, hsc, fun i hi hm => ?_⟩
    have hix : i < x.length := by omega
    have hixP : i < xP.length := by omega
    show (x.map fun v =>
        Real.arsinh ((v - masked_median x mask) / robust_x_mad x mask eps)).getD i 0
      = (xP.map fun v =>
        Real.arsinh ((v - masked_median xP mask) / robust_x_mad xP mask eps)).getD i 0
    rw [getD_map_of_lt hix, getD_map_of_lt hixP, hagree i hi hm, hmed, hsc]
  | minmax =>
    obtain ⟨hb, hbP, hvalid⟩ := hside (Or.inl rfl)
    have hne := validVals_ne_nil hx hvalid
    have hmin := minmax_x_min_congr hb hbP hne hvv
    have hrg : minmax_x_range x mask eps = minmax_x_range xP mask eps := by
      unfold minmax_x_range
      rw [minmax_x_max_congr hb hbP hne hvv, hmin]
    refine ⟨hmin, hrg, fun i hi hm => ?_⟩
    have hix : i < x.length := by omega
    have hixP : i < xP.length := by omega
    show (x.map fun v => (v - minmax_x_min x mask) / minmax_x_range x mask eps).getD i 0
      = (xP.map fun v => (v - minmax_x_min xP mask) / minmax_x_range xP mask eps).getD i 0
    rw [getD_map_of_lt hix, getD_map_of_lt hixP, hagree i hi hm, hmin, hrg]
  | minmax1 =>
    obtain ⟨hb, hbP, hvalid⟩ := hside (Or.inr rfl)
    have hne := validVals_ne_nil hx hvalid
    have hmin := minmax_x_min_congr hb hbP hne hvv
    have hrg : minmax_x_range x mask eps = minmax_x_range xP mask eps := by
      unfold minmax_x_range
      rw [minmax_x_max_congr hb hbP hne hvv, hmin]
    refine ⟨hmin, hrg, fun i hi hm => ?_⟩
    have hix : i < x.length := by omega
    have hixP : i < xP.length := by omega
    show (x.map fun v =>
        ((v - minmax_x_min x mask) / minmax_x_range x mask eps) * 2 - 1).getD i 0
      = (xP.map fun v =>
        ((v - minmax_x_min xP mask) / minmax_x_range xP mask eps) * 2 - 1).getD i 0
    rw [getD_map_of_lt hix, getD_map_of_lt hixP, hagree i hi hm, hmin, hrg]

/-- C3 counterexample: under the minmax scaler the claim fails as stated:
`x = [0, 0]` and `x' = [0, 4e12]` agree at the single valid position `0` of
`mask = [true, false]`, yet their scale statistics differ, because the huge
invalid entry `4e12` beats the `-1e12` sentinel and wins the maximum. -/
theorem masked_entry_invariance_counterexample :
    ([0, 0] : List ℚ).getD 0 0 = ([0, 4000000000000] : List ℚ).getD 0 0 ∧
      (minmax_scaler ([0, 0] : List ℚ) [true, false] (1 / 1000000)).2.2
        ≠ (minmax_scaler ([0, 4000000000000] : List ℚ) [true, false] (1 / 1000000)).2.2 := by
  constructor
  · rfl
  · norm_num [minmax_scaler, minmax_x_range, minmax_x_max, minmax_x_min, sentineled,
      listMax, listMin, List.zipWith_cons_cons, max_def, min_def]

/-- C3 witness: the invariance applied to the standard scaler on the concrete
slice `x = x' = [1, 2]`, `mask = [true, false]`, `eps = 1`. -/
theorem masked_entry_invariance_witness :
    (scalerF ScalerType.standard [1, 2] [true, false] 1).2.1
        = (scalerF ScalerType.standard [1, 2] [true, false] 1).2.1 ∧
      (scalerF ScalerType.standard [1, 2] [true, false] 1).2.2
        = (scalerF ScalerType.standard [1, 2] [true, false] 1).2.2 ∧
      ∀ i, i < ([true, false] : List Bool).length →
        ([true, false] : List Bool).getD i false = true →
        (scalerF ScalerType.standard [1, 2] [true, false] 1).1.getD i 0
          = (scalerF ScalerType.standard [1, 2] [true, false] 1).1.getD i 0 :=
  masked_entry_invariance ScalerType.standard [1, 2] [1, 2] [true, false] 1 rfl rfl
    (fun i hi hm => rfl) (fun h => absurd h (by decide))
